import Mathlib

/-!
Verification of the fluent_builder library (src/imp.rs).

This file gives a shallow embedding of the latest design of the library
(src/imp.rs): the builder state machine (`State`, `StatefulFluentBuilder`),
the method combinators (`StatefulApply`, `Apply`, `ByValue`, `ByRefMut`,
embedded as the constructors of `Method`), the storage strategies
(Inline / Boxed / Shared, embedded as the `inline` / `boxedMethod` /
`sharedMethod` constructors), and both builder facades.

Embedding conventions:

- A Rust by-mutation closure `FnOnce(TSeed, &mut TValue)` is embedded as the
  state transformer `σ → τ → τ` it performs on the value; a by-mutation
  closure `FnOnce(&mut TValue)` is embedded as `τ → τ`.
- The consumption guards of the combinators (`Option` fields emptied with
  `mem::replace` and read back with
  `expect("attempted to re-use builder")`) are embedded as `Option` fields
  of the `Method` constructors; `Method.apply` returns `Option`, where
  `none` models the fatal `expect` panic and `some (v, m)` models normal
  termination with result `v` and post-state `m` of the method value.
- `into_value` and `try_into_value` therefore also return `Option`: `some`
  is normal termination.
-/

namespace FluentBuilderModel

/-- Embedding of the accumulated fluent-method values of src/imp.rs.

`inline` embeds `impl Method for Inline` (the identity placeholder; note the
Rust `Inline` is an empty enum, so no such runtime value is ever stored).
`boxedMethod` / `sharedMethod` embed `BoxedMethod` / `SharedMethod`, each a
box around an arbitrary inner method.
`statefulApplyByValue seed previous next` embeds
`StatefulApply \x7b seed, previous, next: ByValue f \x7d`, and
`statefulApplyByRefMut` the `ByRefMut` variant.
`applyByValue inner` embeds
`Apply \x7b inner: Option<StatefulApply<(), TValue, P, ByValue<f>>> \x7d`
with the inner struct flattened to the triple
`(seed slot, previous, next slot)`, and `applyByRefMut` the `ByRefMut`
variant. -/
inductive Method (σ τ : Type) : Type where
  | inline : Method σ τ
  | boxedMethod : Method σ τ → Method σ τ
  | sharedMethod : Method σ τ → Method σ τ
  | statefulApplyByValue :
      Option σ → Option (Method σ τ) → Option (σ → τ → τ) → Method σ τ
  | statefulApplyByRefMut :
      Option σ → Option (Method σ τ) → Option (σ → τ → τ) → Method σ τ
  | applyByValue :
      Option (Option Unit × Option (Method σ τ) × Option (τ → τ)) → Method σ τ
  | applyByRefMut :
      Option (Option Unit × Option (Method σ τ) × Option (τ → τ)) → Method σ τ

variable {σ τ : Type}

/-- Embedding of `Method::apply(&mut self, value) -> value`.

Each `impl Method` of src/imp.rs is one arm. The result is `none` exactly
when the Rust code would hit an `expect("attempted to re-use builder")`
panic; otherwise `some (result, post-state of self)`. For `StatefulApply`
the code takes `seed` and `next` out of `self` (leaving `None` behind) and
applies `previous` in place before running the new step; for `Apply` the
code takes the whole `inner` out of `self` (leaving `None`), splits off the
next step with `take_next`, re-wraps it with `set_next` to drop the unit
seed, and runs the inner `StatefulApply::apply` on a local that is then
discarded. -/
def Method.apply : Method σ τ → τ → Option (τ × Method σ τ)
  | .inline, v => some (v, .inline)
  | .boxedMethod m, v =>
    match m.apply v with
    | none => none
    | some (w, m2) => some (w, .boxedMethod m2)
  | .sharedMethod m, v =>
    match m.apply v with
    | none => none
    | some (w, m2) => some (w, .sharedMethod m2)
  | .statefulApplyByValue seedSlot prev nextSlot, v =>
    match seedSlot, nextSlot with
    | some s, some f =>
      match prev with
      | none => some (f s v, .statefulApplyByValue none none none)
      | some p =>
        match p.apply v with
        | none => none
        | some (w, p2) => some (f s w, .statefulApplyByValue none (some p2) none)
    | _, _ => none
  | .statefulApplyByRefMut seedSlot prev nextSlot, v =>
    match seedSlot, nextSlot with
    | some s, some f =>
      match prev with
      | none => some (f s v, .statefulApplyByRefMut none none none)
      | some p =>
        match p.apply v with
        | none => none
        | some (w, p2) => some (f s w, .statefulApplyByRefMut none (some p2) none)
    | _, _ => none
  | .applyByValue innerSlot, v =>
    match innerSlot with
    | none => none
    | some (seedSlot, prev, nextSlot) =>
      match nextSlot with
      | none => none
      | some f =>
        match seedSlot with
        | none => none
        | some _ =>
          match prev with
          | none => some (f v, .applyByValue none)
          | some p =>
            match p.apply v with
            | none => none
            | some (w, _) => some (f w, .applyByValue none)
  | .applyByRefMut innerSlot, v =>
    match innerSlot with
    | none => none
    | some (seedSlot, prev, nextSlot) =>
      match nextSlot with
      | none => none
      | some f =>
        match seedSlot with
        | none => none
        | some _ =>
          match prev with
          | none => some (f v, .applyByRefMut none)
          | some p =>
            match p.apply v with
            | none => none
            | some (w, _) => some (f w, .applyByRefMut none)

/-- Embedding of `enum State<TSeed, TValue> \x7b Value(TValue), Seed(TSeed) \x7d`. -/
inductive State (σ τ : Type) : Type where
  | value : τ → State σ τ
  | seed : σ → State σ τ
  deriving DecidableEq

/-- Embedding of `StatefulFluentBuilderInner` (and with it the
`StatefulFluentBuilder` wrapper, whose only other content is the phantom
stacking-policy parameter; the policy is embedded by giving the
policy-specific operations distinct names below). -/
structure StatefulFluentBuilder (σ τ : Type) : Type where
  state : State σ τ
  fluent_method : Option (Method σ τ)

namespace StatefulFluentBuilder

/-- Embedding of `StatefulFluentBuilder::from_value`. -/
def from_value (v : τ) : StatefulFluentBuilder σ τ :=
  { state := State.value v, fluent_method := none }

/-- Embedding of `StatefulFluentBuilder::from_seed`. -/
def from_seed (s : σ) : StatefulFluentBuilder σ τ :=
  { state := State.seed s, fluent_method := none }

/-- Embedding of `StatefulFluentBuilder::value`. -/
def value (_b : StatefulFluentBuilder σ τ) (v : τ) : StatefulFluentBuilder σ τ :=
  { state := State.value v, fluent_method := none }

/-- Embedding of `StatefulFluentBuilder::from_fluent` (Inline storage):
`Apply::new(None, ByValue(fluent_method))` on a fresh `Seed(seed)` state. -/
def from_fluent (s : σ) (f : τ → τ) : StatefulFluentBuilder σ τ :=
  { state := State.seed s
    fluent_method := some (Method.applyByValue (some (some (), none, some f))) }

/-- Embedding of `StatefulFluentBuilder::from_fluent_mut` (Inline storage). -/
def from_fluent_mut (s : σ) (f : τ → τ) : StatefulFluentBuilder σ τ :=
  { state := State.seed s
    fluent_method := some (Method.applyByRefMut (some (some (), none, some f))) }

/-- Embedding of the private `StatefulFluentBuilder::<_,_,Stack,_>::stack`
helper: the new method is built from the previous (optional) one, the state
is kept. -/
def stack (b : StatefulFluentBuilder σ τ)
    (fluent_stacker : Option (Method σ τ) → Method σ τ) :
    StatefulFluentBuilder σ τ :=
  { state := b.state, fluent_method := some (fluent_stacker b.fluent_method) }

/-- Embedding of `StatefulFluentBuilder::<_,_,Stack,_>::fluent`:
`StatefulApply::new(seed, previous_fluent_method, ByValue(fluent_method))`. -/
def fluent_stack (b : StatefulFluentBuilder σ τ) (s : σ) (f : σ → τ → τ) :
    StatefulFluentBuilder σ τ :=
  b.stack (fun prev => Method.statefulApplyByValue (some s) prev (some f))

/-- Embedding of `StatefulFluentBuilder::<_,_,Stack,_>::fluent_mut`. -/
def fluent_mut_stack (b : StatefulFluentBuilder σ τ) (s : σ) (f : σ → τ → τ) :
    StatefulFluentBuilder σ τ :=
  b.stack (fun prev => Method.statefulApplyByRefMut (some s) prev (some f))

/-- Embedding of `StatefulFluentBuilder::<_,_,Override,_>::fluent`: the
receiver is consumed and discarded, the result is `from_fluent(seed, f)`. -/
def fluent_override (_b : StatefulFluentBuilder σ τ) (s : σ) (f : τ → τ) :
    StatefulFluentBuilder σ τ :=
  from_fluent s f

/-- Embedding of `StatefulFluentBuilder::<_,_,Override,_>::fluent_mut`. -/
def fluent_mut_override (_b : StatefulFluentBuilder σ τ) (s : σ) (f : τ → τ) :
    StatefulFluentBuilder σ τ :=
  from_fluent_mut s f

/-- Embedding of `StatefulFluentBuilder::into_value`: take the value, or
construct the default from the seed, then apply the accumulated method (if
any) exactly once. `none` models the re-use panic inside `apply`. -/
def into_value (b : StatefulFluentBuilder σ τ) (default_value : σ → τ) :
    Option τ :=
  let d := match b.state with
    | State.value v => v
    | State.seed s => default_value s
  match b.fluent_method with
  | some m => (m.apply d).map Prod.fst
  | none => some d

/-- Embedding of `StatefulFluentBuilder::boxed`: wrap the accumulated
method (if any) in a `BoxedMethod`, keep the state. -/
def boxed (b : StatefulFluentBuilder σ τ) : StatefulFluentBuilder σ τ :=
  { state := b.state, fluent_method := b.fluent_method.map Method.boxedMethod }

/-- Embedding of `StatefulFluentBuilder::shared`: wrap the accumulated
method (if any) in a `SharedMethod`, keep the state. -/
def shared (b : StatefulFluentBuilder σ τ) : StatefulFluentBuilder σ τ :=
  { state := b.state, fluent_method := b.fluent_method.map Method.sharedMethod }

end StatefulFluentBuilder

/-- Embedding of `enum TryIntoValue<TValue, TBuilder>`. -/
inductive TryIntoValue (τ β : Type) : Type where
  | value : τ → TryIntoValue τ β
  | builder : β → TryIntoValue τ β

/-- Embedding of `StatefulFluentBuilder::try_into_value`: with a concrete
value the method is applied to it at once and the `Value` variant is
returned; otherwise the builder itself is returned unchanged in the
`Builder` variant. `none` models the re-use panic inside `apply`. -/
def StatefulFluentBuilder.try_into_value (b : StatefulFluentBuilder σ τ) :
    Option (TryIntoValue τ (StatefulFluentBuilder σ τ)) :=
  match b.state with
  | State.value v =>
    (match b.fluent_method with
     | some m => (m.apply v).map Prod.fst
     | none => some v).map TryIntoValue.value
  | State.seed _ => some (TryIntoValue.builder b)

/-- Embedding of the stateless facade `FluentBuilder`, a wrapper around
`StatefulFluentBuilder<(), TValue, TStack, TStorage>`. -/
structure FluentBuilder (τ : Type) : Type where
  inner : StatefulFluentBuilder Unit τ

namespace FluentBuilder

/-- Embedding of `FluentBuilder::new` / `Default::default`. -/
def new : FluentBuilder τ :=
  { inner := StatefulFluentBuilder.from_seed () }

/-- Embedding of `FluentBuilder::value`. -/
def value (b : FluentBuilder τ) (v : τ) : FluentBuilder τ :=
  { inner := b.inner.value v }

/-- Embedding of `FluentBuilder::<_,Stack,_>::fluent`:
`self.inner.stack(|prev| Apply::new(prev, ByValue(fluent_method)))`. -/
def fluent_stack (b : FluentBuilder τ) (f : τ → τ) : FluentBuilder τ :=
  { inner := b.inner.stack
      (fun prev => Method.applyByValue (some (some (), prev, some f))) }

/-- Embedding of `FluentBuilder::<_,Stack,_>::fluent_mut`. -/
def fluent_mut_stack (b : FluentBuilder τ) (f : τ → τ) : FluentBuilder τ :=
  { inner := b.inner.stack
      (fun prev => Method.applyByRefMut (some (some (), prev, some f))) }

/-- Embedding of `FluentBuilder::<_,Override,_>::fluent`:
`self.inner.fluent((), fluent_method)`. -/
def fluent_override (b : FluentBuilder τ) (f : τ → τ) : FluentBuilder τ :=
  { inner := b.inner.fluent_override () f }

/-- Embedding of `FluentBuilder::<_,Override,_>::fluent_mut`. -/
def fluent_mut_override (b : FluentBuilder τ) (f : τ → τ) : FluentBuilder τ :=
  { inner := b.inner.fluent_mut_override () f }

/-- Embedding of `FluentBuilder::into_value`:
`self.inner.into_value(move |_| default_value())`. -/
def into_value (b : FluentBuilder τ) (default_value : Unit → τ) : Option τ :=
  b.inner.into_value (fun _ => default_value ())

/-- Embedding of `FluentBuilder::try_into_value`: delegate and re-wrap the
builder variant. -/
def try_into_value (b : FluentBuilder τ) :
    Option (TryIntoValue τ (FluentBuilder τ)) :=
  match b.inner.try_into_value with
  | none => none
  | some (TryIntoValue.builder i) => some (TryIntoValue.builder { inner := i })
  | some (TryIntoValue.value v) => some (TryIntoValue.value v)

/-- Embedding of `FluentBuilder::boxed`. -/
def boxed (b : FluentBuilder τ) : FluentBuilder τ :=
  { inner := b.inner.boxed }

/-- Embedding of `FluentBuilder::shared`. -/
def shared (b : FluentBuilder τ) : FluentBuilder τ :=
  { inner := b.inner.shared }

end FluentBuilder

/-- Value-level semantics of one application of a method: the result value
of `Method.apply`, `none` on a re-use panic. -/
def applyValue (m : Method σ τ) (v : τ) : Option τ :=
  (m.apply v).map Prod.fst

/-- Freshness of a method value: every consumption slot that
`Method.apply` reads with `expect` is still populated, recursively. Methods
built by the public builder operations are fresh. -/
def Method.fresh : Method σ τ → Bool
  | .inline => true
  | .boxedMethod m => m.fresh
  | .sharedMethod m => m.fresh
  | .statefulApplyByValue seedSlot prev nextSlot =>
    seedSlot.isSome && nextSlot.isSome &&
      (match prev with | none => true | some p => p.fresh)
  | .statefulApplyByRefMut seedSlot prev nextSlot =>
    seedSlot.isSome && nextSlot.isSome &&
      (match prev with | none => true | some p => p.fresh)
  | .applyByValue innerSlot =>
    match innerSlot with
    | none => false
    | some (seedSlot, prev, nextSlot) =>
      seedSlot.isSome && nextSlot.isSome &&
        (match prev with | none => true | some p => p.fresh)
  | .applyByRefMut innerSlot =>
    match innerSlot with
    | none => false
    | some (seedSlot, prev, nextSlot) =>
      seedSlot.isSome && nextSlot.isSome &&
        (match prev with | none => true | some p => p.fresh)

/-- A composed method: one built by the `Apply` / `StatefulApply`
combinators, possibly re-wrapped by the boxed or shared storage strategy.
Only the no-op `Inline` placeholder is not composed (and in the Rust code
`Inline` is an empty enum, so no such method value ever exists at run
time). -/
def Method.composed : Method σ τ → Bool
  | .inline => false
  | .boxedMethod m => m.composed
  | .sharedMethod m => m.composed
  | .statefulApplyByValue _ _ _ => true
  | .statefulApplyByRefMut _ _ _ => true
  | .applyByValue _ => true
  | .applyByRefMut _ => true

/-- A builder is fresh when its accumulated method (if any) is fresh. All
builders reachable through the public operations are fresh. -/
def StatefulFluentBuilder.builderFresh (b : StatefulFluentBuilder σ τ) : Bool :=
  match b.fluent_method with
  | none => true
  | some m => m.fresh

/-- One public mutating operation on a stateful builder, used to quantify
over arbitrary operation sequences. The stack-policy and override-policy
fluent calls are both present; a concrete builder type admits one of the
two families, so every realizable call sequence is covered. -/
inductive Op (σ τ : Type) : Type where
  | value : τ → Op σ τ
  | fluent_stack : σ → (σ → τ → τ) → Op σ τ
  | fluent_mut_stack : σ → (σ → τ → τ) → Op σ τ
  | fluent_override : σ → (τ → τ) → Op σ τ
  | fluent_mut_override : σ → (τ → τ) → Op σ τ
  | boxed : Op σ τ
  | shared : Op σ τ

/-- Run one operation on a stateful builder. -/
def applyOp (b : StatefulFluentBuilder σ τ) : Op σ τ → StatefulFluentBuilder σ τ
  | Op.value v => b.value v
  | Op.fluent_stack s f => b.fluent_stack s f
  | Op.fluent_mut_stack s f => b.fluent_mut_stack s f
  | Op.fluent_override s f => b.fluent_override s f
  | Op.fluent_mut_override s f => b.fluent_mut_override s f
  | Op.boxed => b.boxed
  | Op.shared => b.shared

/-- Run a sequence of operations on a stateful builder, first element
first. -/
def run (b : StatefulFluentBuilder σ τ) (ops : List (Op σ τ)) :
    StatefulFluentBuilder σ τ :=
  ops.foldl applyOp b

/-- One public mutating operation on the stateless facade. -/
inductive SOp (τ : Type) : Type where
  | value : τ → SOp τ
  | fluent_stack : (τ → τ) → SOp τ
  | fluent_mut_stack : (τ → τ) → SOp τ
  | fluent_override : (τ → τ) → SOp τ
  | fluent_mut_override : (τ → τ) → SOp τ

/-- Run one operation on a stateless builder. -/
def applySOp (b : FluentBuilder τ) : SOp τ → FluentBuilder τ
  | SOp.value v => b.value v
  | SOp.fluent_stack f => b.fluent_stack f
  | SOp.fluent_mut_stack f => b.fluent_mut_stack f
  | SOp.fluent_override f => b.fluent_override f
  | SOp.fluent_mut_override f => b.fluent_mut_override f

/-- Run a sequence of operations on a stateless builder, first element
first. -/
def runS (b : FluentBuilder τ) (ops : List (SOp τ)) : FluentBuilder τ :=
  ops.foldl applySOp b

/-- The stateful operation corresponding to a stateless one: the same call
with seed `()`, the step lifted to ignore the seed argument. -/
def SOp.toStateful : SOp τ → Op Unit τ
  | SOp.value v => Op.value v
  | SOp.fluent_stack f => Op.fluent_stack () (fun _ v => f v)
  | SOp.fluent_mut_stack f => Op.fluent_mut_stack () (fun _ v => f v)
  | SOp.fluent_override f => Op.fluent_override () f
  | SOp.fluent_mut_override f => Op.fluent_mut_override () f

/-- Two methods are observationally equivalent when one application yields
the same result value (or the same panic) on every input. -/
def MethodEquiv (m m' : Method σ τ) : Prop :=
  ∀ v, applyValue m v = applyValue m' v

/-- Lift of `MethodEquiv` to the optional method slot. -/
def OptMethodEquiv : Option (Method σ τ) → Option (Method σ τ) → Prop
  | none, none => True
  | some m, some m' => MethodEquiv m m'
  | _, _ => False

/-- Two stateful builders are observationally equivalent when they hold the
same state and observationally equivalent method slots. -/
def BuilderEquiv (b b' : StatefulFluentBuilder σ τ) : Prop :=
  b.state = b'.state ∧ OptMethodEquiv b.fluent_method b'.fluent_method

theorem applyValue_boxedMethod (m : Method σ τ) (v : τ) :
    applyValue (Method.boxedMethod m) v = applyValue m v := by
  simp only [applyValue, Method.apply]
  cases h : m.apply v <;> simp [h]

theorem applyValue_sharedMethod (m : Method σ τ) (v : τ) :
    applyValue (Method.sharedMethod m) v = applyValue m v := by
  simp only [applyValue, Method.apply]
  cases h : m.apply v <;> simp [h]

theorem applyValue_statefulApplyByValue_none (s : σ) (f : σ → τ → τ) (v : τ) :
    applyValue (Method.statefulApplyByValue (some s) none (some f)) v
      = some (f s v) := rfl

theorem applyValue_statefulApplyByValue_some (s : σ) (p : Method σ τ)
    (f : σ → τ → τ) (v : τ) :
    applyValue (Method.statefulApplyByValue (some s) (some p) (some f)) v
      = (applyValue p v).map (f s) := by
  simp only [applyValue, Method.apply]
  cases h : p.apply v <;> simp [h]

theorem applyValue_statefulApplyByRefMut_none (s : σ) (f : σ → τ → τ) (v : τ) :
    applyValue (Method.statefulApplyByRefMut (some s) none (some f)) v
      = some (f s v) := rfl

theorem applyValue_statefulApplyByRefMut_some (s : σ) (p : Method σ τ)
    (f : σ → τ → τ) (v : τ) :
    applyValue (Method.statefulApplyByRefMut (some s) (some p) (some f)) v
      = (applyValue p v).map (f s) := by
  simp only [applyValue, Method.apply]
  cases h : p.apply v <;> simp [h]

theorem applyValue_applyByValue_none (f : τ → τ) (v : τ) :
    applyValue (Method.applyByValue (some (some (), none, some f)) : Method σ τ) v
      = some (f v) := rfl

theorem applyValue_applyByValue_some (p : Method σ τ) (f : τ → τ) (v : τ) :
    applyValue (Method.applyByValue (some (some (), some p, some f))) v
      = (applyValue p v).map f := by
  simp only [applyValue, Method.apply]
  cases h : p.apply v <;> simp [h]

theorem applyValue_applyByRefMut_none (f : τ → τ) (v : τ) :
    applyValue (Method.applyByRefMut (some (some (), none, some f)) : Method σ τ) v
      = some (f v) := rfl

theorem applyValue_applyByRefMut_some (p : Method σ τ) (f : τ → τ) (v : τ) :
    applyValue (Method.applyByRefMut (some (some (), some p, some f))) v
      = (applyValue p v).map f := by
  simp only [applyValue, Method.apply]
  cases h : p.apply v <;> simp [h]

theorem methodEquiv_refl (m : Method σ τ) : MethodEquiv m m := fun _ => rfl

theorem optMethodEquiv_refl (m? : Option (Method σ τ)) : OptMethodEquiv m? m? := by
  cases m? with
  | none => trivial
  | some m => exact methodEquiv_refl m

/-- Boxing the accumulated method does not change its one-application
semantics. -/
theorem boxed_builderEquiv (b : StatefulFluentBuilder σ τ) :
    BuilderEquiv b.boxed b := by
  refine ⟨rfl, ?_⟩
  cases h : b.fluent_method with
  | none => simp [StatefulFluentBuilder.boxed, OptMethodEquiv, h]
  | some m =>
    simp only [StatefulFluentBuilder.boxed, h, Option.map_some]
    exact fun v => applyValue_boxedMethod m v

/-- Sharing the accumulated method does not change its one-application
semantics. -/
theorem shared_builderEquiv (b : StatefulFluentBuilder σ τ) :
    BuilderEquiv b.shared b := by
  refine ⟨rfl, ?_⟩
  cases h : b.fluent_method with
  | none => simp [StatefulFluentBuilder.shared, OptMethodEquiv, h]
  | some m =>
    simp only [StatefulFluentBuilder.shared, h, Option.map_some]
    exact fun v => applyValue_sharedMethod m v

/-- Every single builder operation preserves observational equivalence. -/
theorem applyOp_builderEquiv {b b' : StatefulFluentBuilder σ τ}
    (h : BuilderEquiv b b') (op : Op σ τ) :
    BuilderEquiv (applyOp b op) (applyOp b' op) := by
  obtain ⟨hs, hm⟩ := h
  cases op with
  | value v =>
    exact ⟨rfl, optMethodEquiv_refl _⟩
  | fluent_stack s f =>
    refine ⟨hs, ?_⟩
    simp only [applyOp, StatefulFluentBuilder.fluent_stack,
      StatefulFluentBuilder.stack]
    cases hb : b.fluent_method with
    | none =>
      cases hb' : b'.fluent_method with
      | none => exact methodEquiv_refl _
      | some m' => rw [hb, hb'] at hm; exact absurd hm (by simp [OptMethodEquiv])
    | some m =>
      cases hb' : b'.fluent_method with
      | none => rw [hb, hb'] at hm; exact absurd hm (by simp [OptMethodEquiv])
      | some m' =>
        rw [hb, hb'] at hm
        intro v
        rw [applyValue_statefulApplyByValue_some, applyValue_statefulApplyByValue_some, hm v]
  | fluent_mut_stack s f =>
    refine ⟨hs, ?_⟩
    simp only [applyOp, StatefulFluentBuilder.fluent_mut_stack,
      StatefulFluentBuilder.stack]
    cases hb : b.fluent_method with
    | none =>
      cases hb' : b'.fluent_method with
      | none => exact methodEquiv_refl _
      | some m' => rw [hb, hb'] at hm; exact absurd hm (by simp [OptMethodEquiv])
    | some m =>
      cases hb' : b'.fluent_method with
      | none => rw [hb, hb'] at hm; exact absurd hm (by simp [OptMethodEquiv])
      | some m' =>
        rw [hb, hb'] at hm
        intro v
        rw [applyValue_statefulApplyByRefMut_some, applyValue_statefulApplyByRefMut_some, hm v]
  | fluent_override s f =>
    exact ⟨rfl, optMethodEquiv_refl _⟩
  | fluent_mut_override s f =>
    exact ⟨rfl, optMethodEquiv_refl _⟩
  | boxed =>
    refine ⟨by simpa [applyOp, StatefulFluentBuilder.boxed] using hs, ?_⟩
    simp only [applyOp, StatefulFluentBuilder.boxed]
    cases hb : b.fluent_method with
    | none =>
      cases hb' : b'.fluent_method with
      | none => trivial
      | some m' => rw [hb, hb'] at hm; exact absurd hm (by simp [OptMethodEquiv])
    | some m =>
      cases hb' : b'.fluent_method with
      | none => rw [hb, hb'] at hm; exact absurd hm (by simp [OptMethodEquiv])
      | some m' =>
        rw [hb, hb'] at hm
        intro v
        rw [applyValue_boxedMethod, applyValue_boxedMethod, hm v]
  | shared =>
    refine ⟨by simpa [applyOp, StatefulFluentBuilder.shared] using hs, ?_⟩
    simp only [applyOp, StatefulFluentBuilder.shared]
    cases hb : b.fluent_method with
    | none =>
      cases hb' : b'.fluent_method with
      | none => trivial
      | some m' => rw [hb, hb'] at hm; exact absurd hm (by simp [OptMethodEquiv])
    | some m =>
      cases hb' : b'.fluent_method with
      | none => rw [hb, hb'] at hm; exact absurd hm (by simp [OptMethodEquiv])
      | some m' =>
        rw [hb, hb'] at hm
        intro v
        rw [applyValue_sharedMethod, applyValue_sharedMethod, hm v]

/-- Running any operation sequence preserves observational equivalence. -/
theorem run_builderEquiv {b b' : StatefulFluentBuilder σ τ}
    (h : BuilderEquiv b b') (ops : List (Op σ τ)) :
    BuilderEquiv (run b ops) (run b' ops) := by
  induction ops generalizing b b' with
  | nil => exact h
  | cons op rest ih => exact ih (applyOp_builderEquiv h op)

/-- Observationally equivalent builders resolve to the same value for every
default constructor. -/
theorem into_value_congr {b b' : StatefulFluentBuilder σ τ}
    (h : BuilderEquiv b b') (d : σ → τ) :
    b.into_value d = b'.into_value d := by
  obtain ⟨hs, hm⟩ := h
  unfold StatefulFluentBuilder.into_value
  rw [hs]
  cases hb : b.fluent_method with
  | none =>
    cases hb' : b'.fluent_method with
    | none => rfl
    | some m' => rw [hb, hb'] at hm; exact absurd hm (by simp [OptMethodEquiv])
  | some m =>
    cases hb' : b'.fluent_method with
    | none => rw [hb, hb'] at hm; exact absurd hm (by simp [OptMethodEquiv])
    | some m' =>
      rw [hb, hb'] at hm
      exact hm _

/-- Observationally equivalent builders agree on the resolved value of
`try_into_value`. -/
theorem try_into_value_value_congr {b b' : StatefulFluentBuilder σ τ}
    (h : BuilderEquiv b b') (r : τ) :
    b.try_into_value = some (TryIntoValue.value r)
      ↔ b'.try_into_value = some (TryIntoValue.value r) := by
  obtain ⟨hs, hm⟩ := h
  unfold StatefulFluentBuilder.try_into_value
  rw [hs]
  cases hst : b'.state with
  | seed s => simp
  | value v =>
    cases hb : b.fluent_method with
    | none =>
      cases hb' : b'.fluent_method with
      | none => simp
      | some m' => rw [hb, hb'] at hm; exact absurd hm (by simp [OptMethodEquiv])
    | some m =>
      cases hb' : b'.fluent_method with
      | none => rw [hb, hb'] at hm; exact absurd hm (by simp [OptMethodEquiv])
      | some m' =>
        rw [hb, hb'] at hm
        have hv := hm v
        unfold applyValue at hv
        simp [hv]

/-- A fresh method never panics: applying it yields a result. -/
theorem fresh_apply_isSome :
    ∀ (m : Method σ τ) (v : τ), m.fresh = true → (m.apply v).isSome
  | Method.inline, v, _ => by simp [Method.apply]
  | Method.boxedMethod m, v, h => by
    have ih := fresh_apply_isSome m v (by simpa [Method.fresh] using h)
    simp only [Method.apply]
    cases hm : m.apply v with
    | none => rw [hm] at ih; simp at ih
    | some p => cases p; simp
  | Method.sharedMethod m, v, h => by
    have ih := fresh_apply_isSome m v (by simpa [Method.fresh] using h)
    simp only [Method.apply]
    cases hm : m.apply v with
    | none => rw [hm] at ih; simp at ih
    | some p => cases p; simp
  | Method.statefulApplyByValue seedSlot prev nextSlot, v, h => by
    rw [Method.fresh.eq_def] at h
    simp only [Bool.and_eq_true] at h
    obtain ⟨⟨hseed, hnext⟩, hprev⟩ := h
    cases seedSlot with
    | none => simp at hseed
    | some s =>
      cases nextSlot with
      | none => simp at hnext
      | some f =>
        cases prev with
        | none => simp [Method.apply]
        | some p =>
          have ih := fresh_apply_isSome p v (by simpa using hprev)
          simp only [Method.apply]
          cases hp : p.apply v with
          | none => rw [hp] at ih; simp at ih
          | some pr => cases pr; simp
  | Method.statefulApplyByRefMut seedSlot prev nextSlot, v, h => by
    rw [Method.fresh.eq_def] at h
    simp only [Bool.and_eq_true] at h
    obtain ⟨⟨hseed, hnext⟩, hprev⟩ := h
    cases seedSlot with
    | none => simp at hseed
    | some s =>
      cases nextSlot with
      | none => simp at hnext
      | some f =>
        cases prev with
        | none => simp [Method.apply]
        | some p =>
          have ih := fresh_apply_isSome p v (by simpa using hprev)
          simp only [Method.apply]
          cases hp : p.apply v with
          | none => rw [hp] at ih; simp at ih
          | some pr => cases pr; simp
  | Method.applyByValue innerSlot, v, h => by
    cases innerSlot with
    | none => rw [Method.fresh.eq_def] at h; simp at h
    | some t =>
      obtain ⟨seedSlot, prev, nextSlot⟩ := t
      rw [Method.fresh.eq_def] at h
      simp only [Bool.and_eq_true] at h
      obtain ⟨⟨hseed, hnext⟩, hprev⟩ := h
      cases nextSlot with
      | none => simp at hnext
      | some f =>
        cases seedSlot with
        | none => simp at hseed
        | some u =>
          cases prev with
          | none => simp [Method.apply]
          | some p =>
            have ih := fresh_apply_isSome p v (by simpa using hprev)
            simp only [Method.apply]
            cases hp : p.apply v with
            | none => rw [hp] at ih; simp at ih
            | some pr => cases pr; simp
  | Method.applyByRefMut innerSlot, v, h => by
    cases innerSlot with
    | none => rw [Method.fresh.eq_def] at h; simp at h
    | some t =>
      obtain ⟨seedSlot, prev, nextSlot⟩ := t
      rw [Method.fresh.eq_def] at h
      simp only [Bool.and_eq_true] at h
      obtain ⟨⟨hseed, hnext⟩, hprev⟩ := h
      cases nextSlot with
      | none => simp at hnext
      | some f =>
        cases seedSlot with
        | none => simp at hseed
        | some u =>
          cases prev with
          | none => simp [Method.apply]
          | some p =>
            have ih := fresh_apply_isSome p v (by simpa using hprev)
            simp only [Method.apply]
            cases hp : p.apply v with
            | none => rw [hp] at ih; simp at ih
            | some pr => cases pr; simp

/-- A fresh composed method applies successfully exactly once, and every
further application of the consumed post-state panics. -/
theorem method_use_once :
    ∀ (m : Method σ τ), m.composed = true → m.fresh = true → ∀ (v : τ),
      ∃ w m2, m.apply v = some (w, m2) ∧ ∀ u, m2.apply u = none
  | Method.inline, hc, _, _ => by simp [Method.composed] at hc
  | Method.boxedMethod m, hc, hf, v => by
    obtain ⟨w, m2, happ, hdead⟩ :=
      method_use_once m (by simpa [Method.composed] using hc)
        (by simpa [Method.fresh] using hf) v
    refine ⟨w, Method.boxedMethod m2, ?_, ?_⟩
    · simp [Method.apply, happ]
    · intro u; simp [Method.apply, hdead u]
  | Method.sharedMethod m, hc, hf, v => by
    obtain ⟨w, m2, happ, hdead⟩ :=
      method_use_once m (by simpa [Method.composed] using hc)
        (by simpa [Method.fresh] using hf) v
    refine ⟨w, Method.sharedMethod m2, ?_, ?_⟩
    · simp [Method.apply, happ]
    · intro u; simp [Method.apply, hdead u]
  | Method.statefulApplyByValue seedSlot prev nextSlot, _, hf, v => by
    rw [Method.fresh.eq_def] at hf
    simp only [Bool.and_eq_true] at hf
    obtain ⟨⟨hseed, hnext⟩, hprev⟩ := hf
    cases seedSlot with
    | none => simp at hseed
    | some s =>
      cases nextSlot with
      | none => simp at hnext
      | some f =>
        cases prev with
        | none =>
          exact ⟨f s v, Method.statefulApplyByValue none none none, rfl,
            fun u => by simp [Method.apply]⟩
        | some p =>
          have ih := fresh_apply_isSome p v (by simpa using hprev)
          cases hp : p.apply v with
          | none => rw [hp] at ih; simp at ih
          | some pr =>
            obtain ⟨w, p2⟩ := pr
            exact ⟨f s w, Method.statefulApplyByValue none (some p2) none,
              by simp [Method.apply, hp], fun u => by simp [Method.apply]⟩
  | Method.statefulApplyByRefMut seedSlot prev nextSlot, _, hf, v => by
    rw [Method.fresh.eq_def] at hf
    simp only [Bool.and_eq_true] at hf
    obtain ⟨⟨hseed, hnext⟩, hprev⟩ := hf
    cases seedSlot with
    | none => simp at hseed
    | some s =>
      cases nextSlot with
      | none => simp at hnext
      | some f =>
        cases prev with
        | none =>
          exact ⟨f s v, Method.statefulApplyByRefMut none none none, rfl,
            fun u => by simp [Method.apply]⟩
        | some p =>
          have ih := fresh_apply_isSome p v (by simpa using hprev)
          cases hp : p.apply v with
          | none => rw [hp] at ih; simp at ih
          | some pr =>
            obtain ⟨w, p2⟩ := pr
            exact ⟨f s w, Method.statefulApplyByRefMut none (some p2) none,
              by simp [Method.apply, hp], fun u => by simp [Method.apply]⟩
  | Method.applyByValue innerSlot, _, hf, v => by
    cases innerSlot with
    | none => rw [Method.fresh.eq_def] at hf; simp at hf
    | some t =>
      obtain ⟨seedSlot, prev, nextSlot⟩ := t
      rw [Method.fresh.eq_def] at hf
      simp only [Bool.and_eq_true] at hf
      obtain ⟨⟨hseed, hnext⟩, hprev⟩ := hf
      cases nextSlot with
      | none => simp at hnext
      | some f =>
        cases seedSlot with
        | none => simp at hseed
        | some u =>
          cases prev with
          | none =>
            exact ⟨f v, Method.applyByValue none, rfl,
              fun u => by simp [Method.apply]⟩
          | some p =>
            have ih := fresh_apply_isSome p v (by simpa using hprev)
            cases hp : p.apply v with
            | none => rw [hp] at ih; simp at ih
            | some pr =>
              obtain ⟨w, p2⟩ := pr
              exact ⟨f w, Method.applyByValue none,
                by simp [Method.apply, hp], fun u => by simp [Method.apply]⟩
  | Method.applyByRefMut innerSlot, _, hf, v => by
    cases innerSlot with
    | none => rw [Method.fresh.eq_def] at hf; simp at hf
    | some t =>
      obtain ⟨seedSlot, prev, nextSlot⟩ := t
      rw [Method.fresh.eq_def] at hf
      simp only [Bool.and_eq_true] at hf
      obtain ⟨⟨hseed, hnext⟩, hprev⟩ := hf
      cases nextSlot with
      | none => simp at hnext
      | some f =>
        cases seedSlot with
        | none => simp at hseed
        | some u =>
          cases prev with
          | none =>
            exact ⟨f v, Method.applyByRefMut none, rfl,
              fun u => by simp [Method.apply]⟩
          | some p =>
            have ih := fresh_apply_isSome p v (by simpa using hprev)
            cases hp : p.apply v with
            | none => rw [hp] at ih; simp at ih
            | some pr =>
              obtain ⟨w, p2⟩ := pr
              exact ⟨f w, Method.applyByRefMut none,
                by simp [Method.apply, hp], fun u => by simp [Method.apply]⟩

theorem run_append (b : StatefulFluentBuilder σ τ) (ops1 ops2 : List (Op σ τ)) :
    run b (ops1 ++ ops2) = run (run b ops1) ops2 := by
  simp [run, List.foldl_append]

theorem facade_try_value_iff (b : FluentBuilder τ) (r : τ) :
    b.try_into_value = some (TryIntoValue.value r)
      ↔ b.inner.try_into_value = some (TryIntoValue.value r) := by
  unfold FluentBuilder.try_into_value
  cases h : b.inner.try_into_value with
  | none => simp
  | some t =>
    cases t with
    | value v => simp
    | builder i => simp

/-- Claim C1 (Stack-policy FIFO composition): with Stack policy, calling
fluent_mut(s1, step1) then fluent_mut(s2, step2) then into_value applies
step1 first and step2 second, each on the already-transformed value, over
the base value (the explicit value, or the default built from the seed). -/
theorem claim_C1_stack_fifo (v : τ) (s0 s1 s2 : σ) (f1 f2 : σ → τ → τ)
    (d : σ → τ) :
    (((StatefulFluentBuilder.from_value v).fluent_mut_stack s1 f1).fluent_mut_stack
        s2 f2).into_value d = some (f2 s2 (f1 s1 v)) ∧
    (((StatefulFluentBuilder.from_seed s0).fluent_mut_stack s1 f1).fluent_mut_stack
        s2 f2).into_value d = some (f2 s2 (f1 s1 (d s0))) :=
  ⟨rfl, rfl⟩

/-- Claim C2 (Value override totality): from any builder state whatsoever,
value(v) followed by into_value(default_fn) returns exactly v for every
default_fn, discarding every previously accumulated fluent step. -/
theorem claim_C2_value_override (b : StatefulFluentBuilder σ τ) (v : τ)
    (d : σ → τ) :
    (b.value v).into_value d = some v :=
  rfl

/-- Claim C3 (Override-policy last-write-wins): with Override policy,
fluent_mut(s1, step1) then fluent_mut(s2, step2) then into_value applies
only step2; the builder resolves to step2 applied to the default built from
seed s2, and s1/step1 have no observable effect. -/
theorem claim_C3_override_last_write_wins (b : StatefulFluentBuilder σ τ)
    (s1 s2 : σ) (f1 f2 : τ → τ) (d : σ → τ) :
    ((b.fluent_mut_override s1 f1).fluent_mut_override s2 f2).into_value d
      = some (f2 (d s2)) :=
  rfl

/-- Claim C4, counterexample: an Override-policy fluent_mut call does not
leave the state unchanged; on a builder holding Value(10) it replaces the
state by Seed(7). -/
theorem claim_C4_counterexample :
    (StatefulFluentBuilder.from_value 10 :
        StatefulFluentBuilder Nat Nat).state = State.value 10 ∧
    ((StatefulFluentBuilder.from_value 10 :
        StatefulFluentBuilder Nat Nat).fluent_mut_override 7
          (fun v => v)).state = State.seed 7 ∧
    ((StatefulFluentBuilder.from_value 10 :
        StatefulFluentBuilder Nat Nat).fluent_override 7
          (fun v => v)).state = State.seed 7 ∧
    (State.seed 7 : State Nat Nat) ≠ State.value 10 := by
  refine ⟨rfl, rfl, rfl, ?_⟩
  decide

/-- Claim C4, amended: with Override policy, fluent(seed, step) and
fluent_mut(seed, step) replace any existing accumulated Method with a fresh
single-step Method, and reset the builder State to Seed(seed), discarding
any previously stored Value or Seed. -/
theorem claim_C4_amended_override_replaces (b : StatefulFluentBuilder σ τ)
    (s : σ) (f g : τ → τ) :
    b.fluent_override s f
      = { state := State.seed s
          fluent_method :=
            some (Method.applyByValue (some (some (), none, some f))) } ∧
    b.fluent_mut_override s g
      = { state := State.seed s
          fluent_method :=
            some (Method.applyByRefMut (some (some (), none, some g))) } :=
  ⟨rfl, rfl⟩

/-- Claim C5 (Storage-strategy behavioral equivalence): inserting boxed()
or shared() at any point of any operation sequence (which may itself
contain further boxed()/shared() calls) preserves the builder state and the
final resolved value. -/
theorem claim_C5_storage_equivalence (b : StatefulFluentBuilder σ τ)
    (ops1 ops2 : List (Op σ τ)) (d : σ → τ) :
    (run b ops1).boxed.state = (run b ops1).state ∧
    (run b ops1).shared.state = (run b ops1).state ∧
    (run (run b ops1).boxed ops2).into_value d
      = (run b (ops1 ++ ops2)).into_value d ∧
    (run (run b ops1).shared ops2).into_value d
      = (run b (ops1 ++ ops2)).into_value d := by
  refine ⟨rfl, rfl, ?_, ?_⟩
  · rw [run_append]
    exact into_value_congr
      (run_builderEquiv (boxed_builderEquiv (run b ops1)) ops2) d
  · rw [run_append]
    exact into_value_congr
      (run_builderEquiv (shared_builderEquiv (run b ops1)) ops2) d

/-- Claim C6 (try_into_value correctness): on a fresh builder whose state
holds a concrete value, try_into_value returns the Value variant holding
the value with all pending steps applied (the same value into_value would
produce for every default), and never the Builder variant; with only a
seed it returns the Builder variant holding the builder unchanged. -/
theorem claim_C6_try_into_value (b : StatefulFluentBuilder σ τ)
    (hb : b.builderFresh = true) :
    (∀ v, b.state = State.value v →
      ∃ r, b.try_into_value = some (TryIntoValue.value r) ∧
        ∀ d, b.into_value d = some r) ∧
    (∀ s, b.state = State.seed s →
      b.try_into_value = some (TryIntoValue.builder b)) := by
  constructor
  · intro v hv
    unfold StatefulFluentBuilder.try_into_value StatefulFluentBuilder.into_value
    rw [hv]
    cases hm : b.fluent_method with
    | none => exact ⟨v, by simp, fun d => by simp⟩
    | some m =>
      have hf : m.fresh = true := by
        unfold StatefulFluentBuilder.builderFresh at hb
        rw [hm] at hb
        exact hb
      have hsome := fresh_apply_isSome m v hf
      cases hap : m.apply v with
      | none => rw [hap] at hsome; simp at hsome
      | some pr => exact ⟨pr.1, by simp [hap], fun d => by simp [hap]⟩
  · intro s hs
    unfold StatefulFluentBuilder.try_into_value
    rw [hs]

theorem claim_C6_witness :
    (StatefulFluentBuilder.from_value (5 : Nat) :
        StatefulFluentBuilder Nat Nat).builderFresh = true ∧
    ∃ r, (StatefulFluentBuilder.from_value (5 : Nat) :
        StatefulFluentBuilder Nat Nat).try_into_value
          = some (TryIntoValue.value r) ∧
      ∀ d, (StatefulFluentBuilder.from_value (5 : Nat) :
        StatefulFluentBuilder Nat Nat).into_value d = some r :=
  ⟨rfl,
    (claim_C6_try_into_value
      (StatefulFluentBuilder.from_value (5 : Nat)) rfl).1 5 rfl⟩

/-- Claim C7 (Default-resolution identity): a builder created by
from_seed(s), with no value set and no fluent steps, resolves through
into_value(default_fn) to exactly default_fn(s). -/
theorem claim_C7_default_resolution (s : σ) (d : σ → τ) :
    (StatefulFluentBuilder.from_seed s :
        StatefulFluentBuilder σ τ).into_value d = some (d s) :=
  rfl

/-- Claim C8 (use-once composed Method): a fresh composed Method applies
successfully (so under the at-most-once discipline the fault branch is
unreachable), and every further application of the consumed post-state
terminates with the fatal re-use fault (modelled by none, the
`expect("attempted to re-use builder")` panic). -/
theorem claim_C8_use_once (m : Method σ τ) (hc : m.composed = true)
    (hf : m.fresh = true) (v : τ) :
    ∃ w m2, m.apply v = some (w, m2) ∧ ∀ u, m2.apply u = none :=
  method_use_once m hc hf v

theorem claim_C8_witness :
    (Method.statefulApplyByValue (some 2) none (some (fun s v => v + s)) :
        Method Nat Nat).composed = true ∧
    (Method.statefulApplyByValue (some 2) none (some (fun s v => v + s)) :
        Method Nat Nat).fresh = true ∧
    ∃ w m2,
      (Method.statefulApplyByValue (some 2) none (some (fun s v => v + s)) :
          Method Nat Nat).apply 3 = some (w, m2) ∧
      ∀ u, m2.apply u = none :=
  ⟨rfl, rfl,
    claim_C8_use_once
      (Method.statefulApplyByValue (some 2) none (some (fun s v => v + s)))
      rfl rfl 3⟩

/-- Claim C10 (Override fluent resets state to the new seed): with
Override policy, fluent(seed, step) and fluent_mut(seed, step) reset the
builder state to Seed(seed), discarding a previously set concrete value
and any previous seed, so a subsequent into_value(default_fn) resolves to
the step applied to default_fn(seed), not to the discarded value. -/
theorem claim_C10_override_resets_state (b : StatefulFluentBuilder σ τ)
    (v : τ) (s s0 : σ) (f g : τ → τ) (d : σ → τ) :
    ((b.value v).fluent_mut_override s f).state = State.seed s ∧
    ((b.value v).fluent_mut_override s f).into_value d = some (f (d s)) ∧
    ((b.value v).fluent_override s g).state = State.seed s ∧
    ((b.value v).fluent_override s g).into_value d = some (g (d s)) ∧
    ((StatefulFluentBuilder.from_seed s0).fluent_mut_override s f :
        StatefulFluentBuilder σ τ).state = State.seed s :=
  ⟨rfl, rfl, rfl, rfl, rfl⟩

theorem applySOp_crossEquiv {b : FluentBuilder τ}
    {b2 : StatefulFluentBuilder Unit τ} (h : BuilderEquiv b.inner b2)
    (op : SOp τ) :
    BuilderEquiv (applySOp b op).inner (applyOp b2 op.toStateful) := by
  obtain ⟨hs, hm⟩ := h
  cases op with
  | value v => exact ⟨rfl, optMethodEquiv_refl _⟩
  | fluent_stack f =>
    refine ⟨hs, ?_⟩
    simp only [applySOp, applyOp, SOp.toStateful, FluentBuilder.fluent_stack,
      StatefulFluentBuilder.fluent_stack, StatefulFluentBuilder.stack]
    cases hb : b.inner.fluent_method with
    | none =>
      cases hb2 : b2.fluent_method with
      | none =>
        intro v
        rw [applyValue_applyByValue_none, applyValue_statefulApplyByValue_none]
      | some m2 => rw [hb, hb2] at hm; exact absurd hm (by simp [OptMethodEquiv])
    | some m =>
      cases hb2 : b2.fluent_method with
      | none => rw [hb, hb2] at hm; exact absurd hm (by simp [OptMethodEquiv])
      | some m2 =>
        rw [hb, hb2] at hm
        intro v
        rw [applyValue_applyByValue_some, applyValue_statefulApplyByValue_some,
          hm v]
  | fluent_mut_stack f =>
    refine ⟨hs, ?_⟩
    simp only [applySOp, applyOp, SOp.toStateful,
      FluentBuilder.fluent_mut_stack, StatefulFluentBuilder.fluent_mut_stack,
      StatefulFluentBuilder.stack]
    cases hb : b.inner.fluent_method with
    | none =>
      cases hb2 : b2.fluent_method with
      | none =>
        intro v
        rw [applyValue_applyByRefMut_none, applyValue_statefulApplyByRefMut_none]
      | some m2 => rw [hb, hb2] at hm; exact absurd hm (by simp [OptMethodEquiv])
    | some m =>
      cases hb2 : b2.fluent_method with
      | none => rw [hb, hb2] at hm; exact absurd hm (by simp [OptMethodEquiv])
      | some m2 =>
        rw [hb, hb2] at hm
        intro v
        rw [applyValue_applyByRefMut_some, applyValue_statefulApplyByRefMut_some,
          hm v]
  | fluent_override f => exact ⟨rfl, optMethodEquiv_refl _⟩
  | fluent_mut_override f => exact ⟨rfl, optMethodEquiv_refl _⟩

theorem runS_crossEquiv (ops : List (SOp τ)) :
    ∀ (b : FluentBuilder τ) (b2 : StatefulFluentBuilder Unit τ),
      BuilderEquiv b.inner b2 →
      BuilderEquiv (runS b ops).inner (run b2 (ops.map SOp.toStateful)) := by
  induction ops with
  | nil => intro b b2 h; exact h
  | cons op rest ih =>
    intro b b2 h
    exact ih _ _ (applySOp_crossEquiv h op)

/-- Claim C9 (stateless facade = stateful with unit seed): for every
operation sequence started from FluentBuilder::new, the stateless builder
resolves (through into_value with a seed-ignoring default, and through
try_into_value) to the same value as the stateful builder started from
from_seed(()) on the corresponding operations with seed (). -/
theorem claim_C9_stateless_is_stateful_unit (ops : List (SOp τ))
    (d : Unit → τ) :
    (runS FluentBuilder.new ops).into_value d
      = (run (StatefulFluentBuilder.from_seed ())
          (ops.map SOp.toStateful)).into_value (fun _ => d ()) ∧
    ∀ r, (runS FluentBuilder.new ops).try_into_value
        = some (TryIntoValue.value r)
      ↔ (run (StatefulFluentBuilder.from_seed ())
          (ops.map SOp.toStateful)).try_into_value
        = some (TryIntoValue.value r) := by
  have h := runS_crossEquiv ops FluentBuilder.new
    (StatefulFluentBuilder.from_seed ()) ⟨rfl, optMethodEquiv_refl _⟩
  constructor
  · exact into_value_congr h _
  · intro r
    rw [facade_try_value_iff]
    exact try_into_value_value_congr h r

theorem fresh_boxedMethod (m : Method σ τ) :
    (Method.boxedMethod m).fresh = m.fresh := by
  rw [Method.fresh.eq_def]

theorem fresh_sharedMethod (m : Method σ τ) :
    (Method.sharedMethod m).fresh = m.fresh := by
  rw [Method.fresh.eq_def]

theorem fresh_statefulApplyByValue_none (s : σ) (f : σ → τ → τ) :
    (Method.statefulApplyByValue (some s) none (some f) : Method σ τ).fresh
      = true := by
  rw [Method.fresh.eq_def]
  rfl

theorem fresh_statefulApplyByValue_some (s : σ) (p : Method σ τ)
    (f : σ → τ → τ) :
    (Method.statefulApplyByValue (some s) (some p) (some f)).fresh
      = p.fresh := by
  rw [Method.fresh.eq_def]
  simp

theorem fresh_statefulApplyByRefMut_none (s : σ) (f : σ → τ → τ) :
    (Method.statefulApplyByRefMut (some s) none (some f) : Method σ τ).fresh
      = true := by
  rw [Method.fresh.eq_def]
  rfl

theorem fresh_statefulApplyByRefMut_some (s : σ) (p : Method σ τ)
    (f : σ → τ → τ) :
    (Method.statefulApplyByRefMut (some s) (some p) (some f)).fresh
      = p.fresh := by
  rw [Method.fresh.eq_def]
  simp

theorem fresh_applyByValue_none (f : τ → τ) :
    (Method.applyByValue (some (some (), none, some f)) : Method σ τ).fresh
      = true := by
  rw [Method.fresh.eq_def]
  rfl

theorem fresh_applyByValue_some (p : Method σ τ) (f : τ → τ) :
    (Method.applyByValue (some (some (), some p, some f))).fresh
      = p.fresh := by
  rw [Method.fresh.eq_def]
  simp

theorem fresh_applyByRefMut_none (f : τ → τ) :
    (Method.applyByRefMut (some (some (), none, some f)) : Method σ τ).fresh
      = true := by
  rw [Method.fresh.eq_def]
  rfl

theorem fresh_applyByRefMut_some (p : Method σ τ) (f : τ → τ) :
    (Method.applyByRefMut (some (some (), some p, some f))).fresh
      = p.fresh := by
  rw [Method.fresh.eq_def]
  simp

/-- Every public builder operation preserves freshness of the accumulated
method, so every builder reachable from `from_seed` / `from_value` /
`from_fluent` through the public operations satisfies the `builderFresh`
hypothesis of the try_into_value and use-once theorems. -/
theorem applyOp_preserves_builderFresh {b : StatefulFluentBuilder σ τ}
    (h : b.builderFresh = true) (op : Op σ τ) :
    (applyOp b op).builderFresh = true := by
  cases op with
  | value v => rfl
  | fluent_stack s f =>
    unfold StatefulFluentBuilder.builderFresh at h ⊢
    simp only [applyOp, StatefulFluentBuilder.fluent_stack,
      StatefulFluentBuilder.stack]
    cases hb : b.fluent_method with
    | none => rw [fresh_statefulApplyByValue_none]
    | some m => rw [fresh_statefulApplyByValue_some]; rw [hb] at h; exact h
  | fluent_mut_stack s f =>
    unfold StatefulFluentBuilder.builderFresh at h ⊢
    simp only [applyOp, StatefulFluentBuilder.fluent_mut_stack,
      StatefulFluentBuilder.stack]
    cases hb : b.fluent_method with
    | none => rw [fresh_statefulApplyByRefMut_none]
    | some m => rw [fresh_statefulApplyByRefMut_some]; rw [hb] at h; exact h
  | fluent_override s f => rfl
  | fluent_mut_override s f => rfl
  | boxed =>
    unfold StatefulFluentBuilder.builderFresh at h ⊢
    cases hb : b.fluent_method with
    | none => simp [applyOp, StatefulFluentBuilder.boxed, hb]
    | some m =>
      rw [hb] at h
      simp [applyOp, StatefulFluentBuilder.boxed, hb, fresh_boxedMethod]
      exact h
  | shared =>
    unfold StatefulFluentBuilder.builderFresh at h ⊢
    cases hb : b.fluent_method with
    | none => simp [applyOp, StatefulFluentBuilder.shared, hb]
    | some m =>
      rw [hb] at h
      simp [applyOp, StatefulFluentBuilder.shared, hb, fresh_sharedMethod]
      exact h

/-- Freshness is an invariant of arbitrary operation sequences. -/
theorem run_preserves_builderFresh {b : StatefulFluentBuilder σ τ}
    (h : b.builderFresh = true) (ops : List (Op σ τ)) :
    (run b ops).builderFresh = true := by
  induction ops generalizing b with
  | nil => exact h
  | cons op rest ih => exact ih (applyOp_preserves_builderFresh h op)

end FluentBuilderModel
